import Mathlib

/-!
Verification development for the sports-odds positive-EV backend.

The JavaScript source in src/App.js is embedded shallowly:

* JavaScript numbers are modeled as rationals.  Every division performed by
  the two odds-conversion functions has a provably nonzero divisor on the
  branch where it occurs, so plain rational division is exact there.  The
  Kelly stake function can divide by zero, so its result lives in a small
  JavaScript-number domain with signed infinities and NaN.
* JavaScript objects whose key sets are fixed become structures; the
  object-valued mappings (event.odds, marketEntry.byBookmaker) become
  association lists in object-iteration order.
* A field reached through optional chaining, or one that may be absent from
  the incoming JSON, becomes an Option field.  The integer fields that the
  code always passes through parseInt (odds, fairOdds, bookOdds) are modeled
  as integers directly.
-/

namespace SportsOdds

/-- Models convertAmericanOddsToDecimalOdds, src/App.js lines 46-52.
For a negative price the divisor is the (nonzero) price itself and for a
non-negative price the divisor is the literal 100, so rational division is
exact here for every input. -/
def convertAmericanOddsToDecimalOdds (americanOdds : ℚ) : ℚ :=
  if americanOdds < 0 then -1 * (100 / americanOdds) + 1
  else americanOdds / 100 + 1

/-- Models convertAmericanOddsToImpliedProbability, src/App.js lines 54-60.
The divisor is americanOdds - 100 (negative) on the first branch and
americanOdds + 100 (at least 100) on the second, so rational division is
exact here for every input. -/
def convertAmericanOddsToImpliedProbability (americanOdds : ℚ) : ℚ :=
  if americanOdds < 0 then americanOdds / (americanOdds - 100)
  else 100 / (americanOdds + 100)

/-- Models the subset of JavaScript double values reachable from rational
inputs by the Kelly computation: a finite value, the two infinities produced
by dividing a nonzero value by zero, and NaN from dividing zero by zero. -/
inductive JsNum where
  | fin (q : ℚ)
  | posInf
  | negInf
  | nan
deriving DecidableEq

/-- Models JavaScript division of finite values: dividing by zero yields a
signed infinity (or NaN for zero over zero), otherwise the exact quotient.
The negative-zero distinction of doubles is not reachable from the integer
prices involved, so the divisor zero is treated as positive zero. -/
def jsDivQ (a b : ℚ) : JsNum :=
  if b = 0 then (if a = 0 then JsNum.nan else if 0 < a then JsNum.posInf else JsNum.negInf)
  else JsNum.fin (a / b)

/-- Models JavaScript multiplication of a possibly non-finite value by a
finite value. -/
def jsMulQ : JsNum → ℚ → JsNum
  | JsNum.fin a, c => JsNum.fin (a * c)
  | JsNum.posInf, c => if c = 0 then JsNum.nan else if 0 < c then JsNum.posInf else JsNum.negInf
  | JsNum.negInf, c => if c = 0 then JsNum.nan else if 0 < c then JsNum.negInf else JsNum.posInf
  | JsNum.nan, _ => JsNum.nan

/-- Models the default value 0.25 of the kellyFraction parameter of
determineBetSizeUsingKellyCriterion, src/App.js line 63. -/
def kellyFractionDefault : ℚ := 1 / 4

/-- Models determineBetSizeUsingKellyCriterion, src/App.js lines 62-69, with
the kellyFraction parameter explicit.  The sole division whose divisor can
vanish is kelly = (b * p - q) / b, so it is performed with jsDivQ and the
two following multiplications with jsMulQ. -/
def determineBetSizeUsingKellyCriterionWith
    (bankroll betOdds trueOdds kellyFraction : ℚ) : JsNum :=
  let p := convertAmericanOddsToImpliedProbability trueOdds
  let q := 1 - p
  let b := convertAmericanOddsToDecimalOdds betOdds - 1
  let kelly := jsDivQ (b * p - q) b
  jsMulQ (jsMulQ kelly kellyFraction) bankroll

/-- Models a call of determineBetSizeUsingKellyCriterion that omits the
optional kellyFraction argument, as the /betsize route does. -/
def determineBetSizeUsingKellyCriterion (bankroll betOdds trueOdds : ℚ) : JsNum :=
  determineBetSizeUsingKellyCriterionWith bankroll betOdds trueOdds kellyFractionDefault

/-- Models the SPORTSBOOKS registry object, src/App.js lines 35-43, in key
declaration order. -/
def SPORTSBOOKS : List (String × String) :=
  [("fanduel", "FanDuel"), ("fanatics", "Fanatics"), ("betmgm", "BetMGM"),
   ("fliff", "Fliff"), ("espnbet", "ESPN Bet"), ("caesars", "Caesars"),
   ("pinnacle", "Pinnacle")]

/-- Models Object.keys(SPORTSBOOKS). -/
def sportsbookKeys : List String := SPORTSBOOKS.map Prod.fst

/-- Models the indexing SPORTSBOOKS[book].  Every caller first checks that
book is among the keys, so the empty-string fallback for an unknown key is
unreachable in the evaluator. -/
def sportsbookName (book : String) : String := (SPORTSBOOKS.lookup book).getD ""

/-- Models one bookmaker quote of a market: the odds field (always consumed
through parseInt, hence an integer) and the possibly absent overUnder line. -/
structure Quote where
  odds : ℤ
  overUnder : Option ℚ
deriving DecidableEq

/-- Models one marketEntry of event.odds as consumed by the evaluator. -/
structure Market where
  marketName : String
  sideID : String
  fairOdds : ℤ
  fairOverUnder : Option ℚ
  bookOdds : ℤ
  bookOverUnder : Option ℚ
  byBookmaker : Option (List (String × Quote))
deriving DecidableEq

/-- Models the event snapshot fields the evaluator reads.  The team name and
color fields sit behind optional chains in the source and are flattened to
Option fields here. -/
structure Event where
  eventID : String
  sportID : String
  leagueID : String
  type : String
  homeTeam : Option String
  awayTeam : Option String
  homeColor : Option String
  awayColor : Option String
  odds : Option (List (String × Market))
deriving DecidableEq

/-- Models the positive-EV bet object literal built at src/App.js lines
153-158: it has exactly the keys name, odds, overUnder and ev. -/
structure PosEvBet where
  name : String
  odds : ℤ
  overUnder : Option ℚ
  ev : ℚ
deriving DecidableEq

/-- Lists the JavaScript object entries, in literal order, of the bet object
built at src/App.js lines 153-158, with each value tagged by its kind. -/
inductive BetFieldVal where
  | str (s : String)
  | int (n : ℤ)
  | rat (q : ℚ)
  | line (o : Option ℚ)
deriving DecidableEq

/-- Gives the key-value entries of the JavaScript object literal that the
evaluator stores for a positive-EV bet, src/App.js lines 153-158. -/
def betEntryFields (b : PosEvBet) : List (String × BetFieldVal) :=
  [("name", BetFieldVal.str b.name), ("odds", BetFieldVal.int b.odds),
   ("overUnder", BetFieldVal.line b.overUnder), ("ev", BetFieldVal.rat b.ev)]

/-- Models the per-market object stored into returnEventObject.odds by
findPositiveEvBetsForEvent, src/App.js lines 138-146. -/
structure MarketOpp where
  marketName : String
  sideID : String
  fairOdds : ℤ
  fairOverUnder : Option ℚ
  bookOdds : ℤ
  bookOverUnder : Option ℚ
  positiveEvBets : List (String × PosEvBet)
deriving DecidableEq

/-- Models the returnEventObject built by findPositiveEvBetsForEvent,
src/App.js lines 111-121. -/
structure EvalResult where
  eventID : String
  sportID : String
  leagueID : String
  type : String
  homeTeam : Option String
  awayTeam : Option String
  homeColor : Option String
  awayColor : Option String
  odds : List (String × MarketOpp)
deriving DecidableEq

/-- Models the strict equality v.overUnder === marketEntry.fairOverUnder at
src/App.js lines 135-136: two absent values compare equal, an absent value
never equals a present one, and present numeric values compare by value. -/
def lineEq : Option ℚ → Option ℚ → Bool
  | none, none => true
  | some a, some b => decide (a = b)
  | none, some _ => false
  | some _, none => false

/-- Models the goodBookEntries filter of findPositiveEvBetsForEvent,
src/App.js lines 132-136, with the reference price and line abstracted. -/
def goodBookEntries (refOdds : ℤ) (refLine : Option ℚ) (minOdds maxOdds : ℤ)
    (bb : List (String × Quote)) : List (String × Quote) :=
  bb.filter fun kv =>
    decide (kv.1 ∈ sportsbookKeys) && decide (refOdds < kv.2.odds) &&
      decide (kv.2.odds ≤ maxOdds) && decide (minOdds ≤ kv.2.odds) &&
      lineEq kv.2.overUnder refLine

/-- Models the expected-value expression at src/App.js lines 150-151. -/
def evForOdds (refOdds bookOdds : ℤ) : ℚ :=
  convertAmericanOddsToImpliedProbability (refOdds : ℚ) *
    convertAmericanOddsToDecimalOdds (bookOdds : ℚ) - 1

/-- Builds the bet object stored at src/App.js lines 153-158 for one
qualifying bookmaker entry. -/
def mkPosEvBet (refOdds : ℤ) (book : String) (q : Quote) : PosEvBet :=
  { name := sportsbookName book, odds := q.odds, overUnder := q.overUnder,
    ev := evForOdds refOdds q.odds }

/-- Models the loop at src/App.js lines 148-160 that fills positiveEvBets:
each good entry whose EV strictly exceeds minEV is stored under its
bookmaker key. -/
def positiveEvBetsFor (refOdds : ℤ) (minEV : ℚ) (good : List (String × Quote)) :
    List (String × PosEvBet) :=
  good.filterMap fun kv =>
    if minEV < evForOdds refOdds kv.2.odds then some (kv.1, mkPosEvBet refOdds kv.1 kv.2)
    else none

/-- Models the per-market body of the forEach at src/App.js lines 126-167:
skip when byBookmaker is absent, skip when no good entries exist, otherwise
build the market object, fill its bets, and drop it again when no bet passed
the EV threshold.  The returned pair is the key-value entry added to
returnEventObject.odds, or none when the market leaves no entry. -/
def processMarket (minOdds maxOdds : ℤ) (minEV : ℚ) (marketKey : String) (m : Market) :
    Option (String × MarketOpp) :=
  match m.byBookmaker with
  | none => none
  | some bb =>
    let good := goodBookEntries m.fairOdds m.fairOverUnder minOdds maxOdds bb
    if good.isEmpty then none
    else
      let bets := positiveEvBetsFor m.fairOdds minEV good
      if bets.isEmpty then none
      else some (marketKey,
        { marketName := m.marketName, sideID := m.sideID, fairOdds := m.fairOdds,
          fairOverUnder := m.fairOverUnder, bookOdds := m.bookOdds,
          bookOverUnder := m.bookOverUnder, positiveEvBets := bets })

/-- Models findPositiveEvBetsForEvent, src/App.js lines 107-169.  The null
checks on the event and its odds mapping become the two outer matches. -/
def findPositiveEvBetsForEvent (event : Option Event) (minOdds maxOdds : ℤ)
    (minEV : ℚ) : Option EvalResult :=
  match event with
  | none => none
  | some e =>
    match e.odds with
    | none => none
    | some markets =>
      some { eventID := e.eventID, sportID := e.sportID, leagueID := e.leagueID,
             type := e.type, homeTeam := e.homeTeam, awayTeam := e.awayTeam,
             homeColor := e.homeColor, awayColor := e.awayColor,
             odds := markets.filterMap fun km => processMarket minOdds maxOdds minEV km.1 km.2 }

/-- Models the truncation that Number.parseInt applies to a finite numeric
argument: the integer part, rounding toward zero. -/
def jsTrunc (q : ℚ) : ℤ := if 0 ≤ q then ⌊q⌋ else ⌈q⌉

/-- Models parseInt applied to the possibly absent pinnacle overUnder line
at src/App.js line 203.  An absent argument gives NaN, modeled as none in
the result; a numeric argument is truncated toward zero. -/
def jsParseIntOfLine : Option ℚ → Option ℤ
  | none => none
  | some q => some (jsTrunc q)

/-- Models the strict equality v.overUnder === pinnyOverUnder at src/App.js
line 207, where the right side is the parseInt result: NaN (none on the
right) compares equal to nothing, an absent left side equals no number, and
numbers compare by value. -/
def pinnyLineMatches (vLine : Option ℚ) (pLine : Option ℤ) : Bool :=
  match vLine, pLine with
  | some a, some n => decide (a = (n : ℚ))
  | _, _ => false

/-- Models the goodBookEntries filter of findBetterBetsThanPinny,
src/App.js lines 204-207. -/
def pinnyGoodBookEntries (pinnyOdds : ℤ) (pinnyOverUnder : Option ℤ)
    (minOdds maxOdds : ℤ) (bb : List (String × Quote)) : List (String × Quote) :=
  bb.filter fun kv =>
    decide (kv.1 ∈ sportsbookKeys) && decide (pinnyOdds < kv.2.odds) &&
      decide (kv.2.odds ≤ maxOdds) && decide (minOdds ≤ kv.2.odds) &&
      pinnyLineMatches kv.2.overUnder pinnyOverUnder

/-- Models the per-market object stored by findBetterBetsThanPinny,
src/App.js lines 209-219. -/
structure PinnyMarketOpp where
  marketName : String
  sideID : String
  fairOdds : ℤ
  fairOverUnder : Option ℚ
  bookOdds : ℤ
  bookOverUnder : Option ℚ
  pinnyOdds : ℤ
  pinnyOverUnder : Option ℤ
  positiveEvBets : List (String × PosEvBet)
deriving DecidableEq

/-- Models the returnEventObject built by findBetterBetsThanPinny. -/
structure PinnyEvalResult where
  eventID : String
  sportID : String
  leagueID : String
  type : String
  homeTeam : Option String
  awayTeam : Option String
  homeColor : Option String
  awayColor : Option String
  odds : List (String × PinnyMarketOpp)
deriving DecidableEq

/-- Models the per-market body of findBetterBetsThanPinny, src/App.js lines
195-239: skip when byBookmaker is absent or has no pinnacle key, take the
pinnacle quote as the reference, truncate its line with parseInt, and
otherwise proceed as the fair-price evaluator does. -/
def processMarketPinny (minOdds maxOdds : ℤ) (minEV : ℚ) (marketKey : String)
    (m : Market) : Option (String × PinnyMarketOpp) :=
  match m.byBookmaker with
  | none => none
  | some bb =>
    match bb.lookup "pinnacle" with
    | none => none
    | some pq =>
      let pinnyOdds := pq.odds
      let pinnyOverUnder := jsParseIntOfLine pq.overUnder
      let good := pinnyGoodBookEntries pinnyOdds pinnyOverUnder minOdds maxOdds bb
      if good.isEmpty then none
      else
        let bets := positiveEvBetsFor pinnyOdds minEV good
        if bets.isEmpty then none
        else some (marketKey,
          { marketName := m.marketName, sideID := m.sideID, fairOdds := m.fairOdds,
            fairOverUnder := m.fairOverUnder, bookOdds := m.bookOdds,
            bookOverUnder := m.bookOverUnder, pinnyOdds := pinnyOdds,
            pinnyOverUnder := pinnyOverUnder, positiveEvBets := bets })

/-- Models findBetterBetsThanPinny, src/App.js lines 176-242. -/
def findBetterBetsThanPinny (event : Option Event) (minOdds maxOdds : ℤ)
    (minEV : ℚ) : Option PinnyEvalResult :=
  match event with
  | none => none
  | some e =>
    match e.odds with
    | none => none
    | some markets =>
      some { eventID := e.eventID, sportID := e.sportID, leagueID := e.leagueID,
             type := e.type, homeTeam := e.homeTeam, awayTeam := e.awayTeam,
             homeColor := e.homeColor, awayColor := e.awayColor,
             odds := markets.filterMap fun km => processMarketPinny minOdds maxOdds minEV km.1 km.2 }

/-- Counts every positive-EV bet entry across all markets of an evaluation
result, with an absent result counting zero. -/
def countBets (r : Option EvalResult) : ℕ :=
  match r with
  | none => 0
  | some res => (res.odds.map fun kv => kv.2.positiveEvBets.length).sum

/-- Counts the bet entries one market contributes to the fair-mode result:
zero when the market leaves no entry. -/
def marketBetCount (minOdds maxOdds : ℤ) (minEV : ℚ) (km : String × Market) : ℕ :=
  match processMarket minOdds maxOdds minEV km.1 km.2 with
  | none => 0
  | some kv => kv.2.positiveEvBets.length

/-- Example bookmaker quote used by concrete instantiations: price 150 with
line 2.5. -/
def exampleQuote : Quote := { odds := 150, overUnder := some (5 / 2) }

/-- Example market: fair price -110 with line 2.5 and one fanduel quote. -/
def exampleMarket : Market :=
  { marketName := "Moneyline Home", sideID := "home", fairOdds := -110,
    fairOverUnder := some (5 / 2), bookOdds := -105, bookOverUnder := some (5 / 2),
    byBookmaker := some [("fanduel", exampleQuote)] }

/-- Example event holding the one example market under key m1. -/
def exampleEvent : Event :=
  { eventID := "e1", sportID := "BASKETBALL", leagueID := "NBA", type := "match",
    homeTeam := some "Lakers", awayTeam := some "Celtics",
    homeColor := some "purple", awayColor := some "green",
    odds := some [("m1", exampleMarket)] }

/-- Bet entry the evaluator produces for the example event: the expected
value of price 150 against fair price -110 is 110/210 times 5/2 minus 1,
that is 13/42. -/
def exampleBet : PosEvBet :=
  { name := "FanDuel", odds := 150, overUnder := some (5 / 2), ev := 13 / 42 }

/-- Market opportunity the evaluator produces for the example event. -/
def exampleOpp : MarketOpp :=
  { marketName := "Moneyline Home", sideID := "home", fairOdds := -110,
    fairOverUnder := some (5 / 2), bookOdds := -105, bookOverUnder := some (5 / 2),
    positiveEvBets := [("fanduel", exampleBet)] }

/-- Full evaluation result for the example event. -/
def exampleResult : EvalResult :=
  { eventID := "e1", sportID := "BASKETBALL", leagueID := "NBA", type := "match",
    homeTeam := some "Lakers", awayTeam := some "Celtics",
    homeColor := some "purple", awayColor := some "green",
    odds := [("m1", exampleOpp)] }

/-- Example event whose odds mapping is absent, used to instantiate the
hypotheses of the missing-input theorem. -/
def eventWithoutOdds : Event :=
  { eventID := "e0", sportID := "BASKETBALL", leagueID := "NBA", type := "match",
    homeTeam := none, awayTeam := none, homeColor := none, awayColor := none,
    odds := none }

/-- Example pinnacle reference quote carrying the fractional line 2.5. -/
def pinnyRefQuote : Quote := { odds := -110, overUnder := some (5 / 2) }

/-- Example candidate quote for the pinny mode: better price 150 and the
same fractional line 2.5 as the pinnacle reference. -/
def pinnyCandidateQuote : Quote := { odds := 150, overUnder := some (5 / 2) }

/-- Example bookmaker mapping for the pinny mode. -/
def pinnyExampleBB : List (String × Quote) :=
  [("pinnacle", pinnyRefQuote), ("fanduel", pinnyCandidateQuote)]

/-- Example market evaluated in pinny mode. -/
def pinnyExampleMarket : Market :=
  { marketName := "Total Over", sideID := "over", fairOdds := -110,
    fairOverUnder := some (5 / 2), bookOdds := -105, bookOverUnder := some (5 / 2),
    byBookmaker := some pinnyExampleBB }

/-- Example event for the pinny mode. -/
def pinnyExampleEvent : Event :=
  { eventID := "e2", sportID := "BASKETBALL", leagueID := "NBA", type := "match",
    homeTeam := none, awayTeam := none, homeColor := none, awayColor := none,
    odds := some [("m1", pinnyExampleMarket)] }

/-- Result the pinny evaluator produces for the pinny example event: no
market survives, because the truncated reference line 2 matches no quote. -/
def pinnyExampleResult : PinnyEvalResult :=
  { eventID := "e2", sportID := "BASKETBALL", leagueID := "NBA", type := "match",
    homeTeam := none, awayTeam := none, homeColor := none, awayColor := none,
    odds := [] }

/-- Helper: the strict line equality of the fair-price filter holds exactly
when the two optional lines are equal as optional values. -/
lemma lineEq_eq_true_iff (a b : Option ℚ) : lineEq a b = true ↔ a = b := by
  cases a <;> cases b <;> simp [lineEq]

/-- Helper: the pinny-mode line test holds exactly when both sides carry a
number and the candidate line equals the truncated reference line. -/
lemma pinnyLineMatches_eq_true_iff (a : Option ℚ) (b : Option ℤ) :
    pinnyLineMatches a b = true ↔ ∃ x n, a = some x ∧ b = some n ∧ x = (n : ℚ) := by
  cases a <;> cases b <;> simp [pinnyLineMatches]

/-- Helper: membership characterization of the fair-mode candidate filter. -/
lemma mem_goodBookEntries {refOdds : ℤ} {refLine : Option ℚ} {minOdds maxOdds : ℤ}
    {bb : List (String × Quote)} {k : String} {v : Quote} :
    (k, v) ∈ goodBookEntries refOdds refLine minOdds maxOdds bb ↔
      ((k, v) ∈ bb ∧ k ∈ sportsbookKeys ∧ refOdds < v.odds ∧
        minOdds ≤ v.odds ∧ v.odds ≤ maxOdds ∧ v.overUnder = refLine) := by
  unfold goodBookEntries
  rw [List.mem_filter]
  simp only [Bool.and_eq_true, decide_eq_true_eq, lineEq_eq_true_iff]
  tauto

/-- Helper: membership characterization of the pinny-mode candidate filter. -/
lemma mem_pinnyGoodBookEntries {pinnyOdds : ℤ} {pinnyLine : Option ℤ}
    {minOdds maxOdds : ℤ} {bb : List (String × Quote)} {k : String} {v : Quote} :
    (k, v) ∈ pinnyGoodBookEntries pinnyOdds pinnyLine minOdds maxOdds bb ↔
      ((k, v) ∈ bb ∧ k ∈ sportsbookKeys ∧ pinnyOdds < v.odds ∧
        minOdds ≤ v.odds ∧ v.odds ≤ maxOdds ∧
        ∃ x n, v.overUnder = some x ∧ pinnyLine = some n ∧ x = (n : ℚ)) := by
  unfold pinnyGoodBookEntries
  rw [List.mem_filter]
  simp only [Bool.and_eq_true, decide_eq_true_eq, pinnyLineMatches_eq_true_iff]
  tauto

/-- Helper: a bet stored by the EV loop comes from a candidate entry whose
expected value strictly exceeds the threshold. -/
lemma mem_positiveEvBetsFor {refOdds : ℤ} {minEV : ℚ} {good : List (String × Quote)}
    {book : String} {bet : PosEvBet}
    (h : (book, bet) ∈ positiveEvBetsFor refOdds minEV good) :
    ∃ q, (book, q) ∈ good ∧ bet = mkPosEvBet refOdds book q ∧
      minEV < evForOdds refOdds q.odds := by
  unfold positiveEvBetsFor at h
  rw [List.mem_filterMap] at h
  obtain ⟨kv, hmem, heq⟩ := h
  by_cases hev : minEV < evForOdds refOdds kv.2.odds
  · rw [if_pos hev] at heq
    have hpair : (kv.1, mkPosEvBet refOdds kv.1 kv.2) = (book, bet) :=
      Option.some.inj heq
    have h1 : kv.1 = book := congrArg Prod.fst hpair
    have h2 : mkPosEvBet refOdds kv.1 kv.2 = bet := congrArg Prod.snd hpair
    refine ⟨kv.2, ?_, h2.symm.trans (by rw [h1]), ?_⟩
    · rw [← h1]
      exact hmem
    · exact hev
  · rw [if_neg hev] at heq
    exact absurd heq (by simp)

/-- Helper: every candidate whose expected value strictly exceeds the
threshold is stored by the EV loop under its bookmaker key. -/
lemma mem_positiveEvBetsFor_of {refOdds : ℤ} {minEV : ℚ} {good : List (String × Quote)}
    {book : String} {q : Quote} (hq : (book, q) ∈ good)
    (hev : minEV < evForOdds refOdds q.odds) :
    (book, mkPosEvBet refOdds book q) ∈ positiveEvBetsFor refOdds minEV good := by
  unfold positiveEvBetsFor
  rw [List.mem_filterMap]
  exact ⟨(book, q), hq, by rw [if_pos hev]⟩

/-- Helper: inversion of the fair-mode per-market processing.  A market
entry in the output carries the processed key, its bets are exactly those
the EV loop kept, they are non-empty, and the market fields pass through. -/
lemma processMarket_eq_some {minOdds maxOdds : ℤ} {minEV : ℚ} {k : String}
    {m : Market} {kv : String × MarketOpp}
    (h : processMarket minOdds maxOdds minEV k m = some kv) :
    ∃ bb, m.byBookmaker = some bb ∧ kv.1 = k ∧
      kv.2.positiveEvBets =
        positiveEvBetsFor m.fairOdds minEV
          (goodBookEntries m.fairOdds m.fairOverUnder minOdds maxOdds bb) ∧
      kv.2.positiveEvBets ≠ [] ∧ kv.2.fairOdds = m.fairOdds := by
  unfold processMarket at h
  cases hb : m.byBookmaker with
  | none =>
    rw [hb] at h
    exact absurd h (by simp)
  | some bb =>
    rw [hb] at h
    simp only at h
    by_cases hg : (goodBookEntries m.fairOdds m.fairOverUnder minOdds maxOdds bb).isEmpty
    · rw [if_pos hg] at h
      exact absurd h (by simp)
    · rw [if_neg hg] at h
      by_cases hp : (positiveEvBetsFor m.fairOdds minEV
          (goodBookEntries m.fairOdds m.fairOverUnder minOdds maxOdds bb)).isEmpty
      · rw [if_pos hp] at h
        exact absurd h (by simp)
      · rw [if_neg hp] at h
        have hkv := Option.some.inj h
        refine ⟨bb, rfl, ?_, ?_, ?_, ?_⟩
        · rw [← hkv]
        · rw [← hkv]
        · rw [← hkv]
          simp only
          intro hnil
          rw [← List.isEmpty_iff] at hnil
          exact hp hnil
        · rw [← hkv]

/-- Helper: introduction for the fair-mode per-market processing: when the
bookmaker mapping is present and the EV loop keeps at least one bet, the
market entry appears with exactly those bets. -/
lemma processMarket_eq_some_of {minOdds maxOdds : ℤ} {minEV : ℚ} {k : String}
    {m : Market} {bb : List (String × Quote)} (hb : m.byBookmaker = some bb)
    (hne : positiveEvBetsFor m.fairOdds minEV
      (goodBookEntries m.fairOdds m.fairOverUnder minOdds maxOdds bb) ≠ []) :
    processMarket minOdds maxOdds minEV k m = some (k,
      { marketName := m.marketName, sideID := m.sideID, fairOdds := m.fairOdds,
        fairOverUnder := m.fairOverUnder, bookOdds := m.bookOdds,
        bookOverUnder := m.bookOverUnder,
        positiveEvBets := positiveEvBetsFor m.fairOdds minEV
          (goodBookEntries m.fairOdds m.fairOverUnder minOdds maxOdds bb) }) := by
  have hg : (goodBookEntries m.fairOdds m.fairOverUnder minOdds maxOdds bb).isEmpty = false := by
    rw [Bool.eq_false_iff]
    intro hg
    rw [List.isEmpty_iff] at hg
    apply hne
    rw [hg]
    rfl
  have hp : (positiveEvBetsFor m.fairOdds minEV
      (goodBookEntries m.fairOdds m.fairOverUnder minOdds maxOdds bb)).isEmpty = false := by
    rw [Bool.eq_false_iff]
    intro hp
    rw [List.isEmpty_iff] at hp
    exact hne hp
  unfold processMarket
  rw [hb]
  simp only [hg, hp, Bool.false_eq_true, if_false]

/-- Helper: the implied probability of any rational price is positive, since
both branches divide values of equal sign. -/
lemma implied_pos (t : ℚ) : 0 < convertAmericanOddsToImpliedProbability t := by
  unfold convertAmericanOddsToImpliedProbability
  split
  · rename_i h
    have h1 : (0 : ℚ) < -t := by linarith
    have h2 : (0 : ℚ) < 100 - t := by linarith
    have h3 : t / (t - 100) = -t / (100 - t) := by
      rw [show (100 : ℚ) - t = -(t - 100) by ring, show -t = -(t) by ring, neg_div_neg_eq]
    rw [h3]
    exact div_pos h1 h2
  · rename_i h
    push_neg at h
    have h2 : (0 : ℚ) < t + 100 := by linarith
    positivity

/-- Helper: the implied probability of any nonzero rational price is
strictly below one. -/
lemma implied_lt_one (t : ℚ) (ht : t ≠ 0) :
    convertAmericanOddsToImpliedProbability t < 1 := by
  unfold convertAmericanOddsToImpliedProbability
  split
  · rename_i h
    have h2 : (0 : ℚ) < 100 - t := by linarith
    have h3 : t / (t - 100) = -t / (100 - t) := by
      rw [show (100 : ℚ) - t = -(t - 100) by ring, show -t = -(t) by ring, neg_div_neg_eq]
    rw [h3, div_lt_one h2]
    linarith
  · rename_i h
    push_neg at h
    have hpos : (0 : ℚ) < t := lt_of_le_of_ne h (Ne.symm ht)
    have h2 : (0 : ℚ) < t + 100 := by linarith
    rw [div_lt_one h2]
    linarith

/-- Helper: the registry lookup for fanduel yields its display name. -/
lemma sportsbookName_fanduel : sportsbookName "fanduel" = "FanDuel" := rfl

/-- Helper: the example expected value evaluates to 13/42. -/
lemma evForOdds_example : evForOdds (-110) 150 = 13 / 42 := by
  norm_num [evForOdds, convertAmericanOddsToImpliedProbability,
    convertAmericanOddsToDecimalOdds]

/-- Helper: the candidate filter keeps the single example quote. -/
lemma exampleGood_eval :
    goodBookEntries (-110) (some (5 / 2)) (-400) 300 [("fanduel", exampleQuote)] =
      [("fanduel", exampleQuote)] := by
  norm_num [goodBookEntries, lineEq, sportsbookKeys, SPORTSBOOKS, exampleQuote,
    List.filter_cons]

/-- Helper: the EV loop keeps the example quote at threshold 0 and stores
the example bet for it. -/
lemma exampleBets_eval :
    positiveEvBetsFor (-110) 0 [("fanduel", exampleQuote)] = [("fanduel", exampleBet)] := by
  have hev : evForOdds (-110) exampleQuote.odds = 13 / 42 := evForOdds_example
  norm_num [positiveEvBetsFor, mkPosEvBet, List.filterMap_cons, hev, exampleQuote,
    exampleBet, sportsbookName_fanduel, evForOdds_example]

/-- Helper: processing the example market yields the example opportunity. -/
lemma exampleMarket_eval :
    processMarket (-400) 300 0 "m1" exampleMarket = some ("m1", exampleOpp) := by
  unfold processMarket
  simp only [exampleMarket, exampleGood_eval, exampleBets_eval, List.isEmpty_cons,
    Bool.false_eq_true, if_false, exampleOpp]

/-- Helper: concrete evaluation of the example event at the default route
parameters minOdds -400, maxOdds 300, minEV 0. -/
lemma exampleEvent_eval :
    findPositiveEvBetsForEvent (some exampleEvent) (-400) 300 0 = some exampleResult := by
  unfold findPositiveEvBetsForEvent
  simp only [exampleEvent, List.filterMap_cons, List.filterMap_nil, exampleMarket_eval]
  rfl

/-- Helper: parseInt truncates the fractional line 2.5 to the integer 2. -/
lemma jsParseIntOfLine_example : jsParseIntOfLine (some (5 / 2)) = some 2 := by
  show some (jsTrunc (5 / 2)) = some 2
  unfold jsTrunc
  rw [if_pos (by norm_num)]
  simp only [Option.some.injEq]
  rw [Int.floor_eq_iff]
  norm_num

/-- Helper: the pinny candidate filter rejects both example quotes, since
the truncated reference line 2 differs from each 2.5 line and the pinnacle
price is not above itself. -/
lemma pinnyExampleGood_eval :
    pinnyGoodBookEntries (-110) (some 2) (-400) 300 pinnyExampleBB = [] := by
  norm_num [pinnyGoodBookEntries, pinnyLineMatches, sportsbookKeys, SPORTSBOOKS,
    pinnyExampleBB, pinnyRefQuote, pinnyCandidateQuote, List.filter_cons]

/-- Helper: pinny processing drops the pinny example market entirely. -/
lemma pinnyExampleMarket_eval :
    processMarketPinny (-400) 300 0 "m1" pinnyExampleMarket = none := by
  unfold processMarketPinny
  simp only [pinnyExampleMarket]
  rw [show pinnyExampleBB.lookup "pinnacle" = some pinnyRefQuote from rfl]
  simp only [pinnyRefQuote, jsParseIntOfLine_example, pinnyExampleGood_eval,
    List.isEmpty_nil, if_true]

/-- Helper: concrete pinny-mode evaluation of the pinny example event. -/
lemma pinnyExampleEvent_eval :
    findBetterBetsThanPinny (some pinnyExampleEvent) (-400) 300 0 =
      some pinnyExampleResult := by
  unfold findBetterBetsThanPinny
  simp only [pinnyExampleEvent, List.filterMap_cons, List.filterMap_nil,
    pinnyExampleMarket_eval]
  rfl

/-- C1 counterexample: at the example event the evaluator emits a bet entry
whose object carries exactly the keys name, odds, overUnder and ev; there is
no stake key, so the entry does not contain a recommended stake, and the
evaluator receives no bankroll or kellyFraction input from which one could
be computed. -/
theorem positiveEvBet_has_no_stake_counterexample :
    findPositiveEvBetsForEvent (some exampleEvent) (-400) 300 0 = some exampleResult ∧
    exampleResult.odds = [("m1", exampleOpp)] ∧
    exampleOpp.positiveEvBets = [("fanduel", exampleBet)] ∧
    (betEntryFields exampleBet).map Prod.fst = ["name", "odds", "overUnder", "ev"] ∧
    "stake" ∉ (betEntryFields exampleBet).map Prod.fst :=
  ⟨exampleEvent_eval, rfl, rfl, rfl, by decide⟩

/-- C1 amended: every bet entry the evaluator emits carries the source
display name, the source price and line, and the computed EV with the EV
threshold satisfied strictly, and nothing else: its object has exactly the
keys name, odds, overUnder and ev, hence no recommended stake. -/
theorem positiveEvBet_entry_shape
    (minOdds maxOdds : ℤ) (minEV : ℚ) (e : Event) (r : EvalResult)
    (mkey : String) (opp : MarketOpp) (book : String) (bet : PosEvBet)
    (hr : findPositiveEvBetsForEvent (some e) minOdds maxOdds minEV = some r)
    (hm : (mkey, opp) ∈ r.odds) (hb : (book, bet) ∈ opp.positiveEvBets) :
    (betEntryFields bet).map Prod.fst = ["name", "odds", "overUnder", "ev"] ∧
    "stake" ∉ (betEntryFields bet).map Prod.fst ∧
    ∃ markets m q bb, e.odds = some markets ∧ (mkey, m) ∈ markets ∧
      m.byBookmaker = some bb ∧ (book, q) ∈ bb ∧
      bet.name = sportsbookName book ∧ bet.odds = q.odds ∧
      bet.overUnder = q.overUnder ∧ bet.ev = evForOdds m.fairOdds q.odds ∧
      minEV < bet.ev := by
  refine ⟨rfl, by simp [betEntryFields], ?_⟩
  cases ho : e.odds with
  | none =>
    simp only [findPositiveEvBetsForEvent, ho] at hr
    exact Option.noConfusion hr
  | some markets =>
    have hodds : r.odds = markets.filterMap
        (fun km => processMarket minOdds maxOdds minEV km.1 km.2) := by
      simp only [findPositiveEvBetsForEvent, ho] at hr
      rw [← Option.some.inj hr]
    rw [hodds, List.mem_filterMap] at hm
    obtain ⟨km, hkm, hpm⟩ := hm
    obtain ⟨bb, hbb, hk, hbets, hne, hfair⟩ := processMarket_eq_some hpm
    rw [hbets] at hb
    obtain ⟨q, hqgood, hbet, hev⟩ := mem_positiveEvBetsFor hb
    have hqbb : (book, q) ∈ bb := (mem_goodBookEntries.mp hqgood).1
    have hkm2 : (mkey, km.2) ∈ markets := by
      have hk2 : mkey = km.1 := hk
      rw [hk2, Prod.mk.eta]
      exact hkm
    refine ⟨markets, km.2, q, bb, rfl, hkm2, hbb, hqbb, ?_, ?_, ?_, ?_, ?_⟩
    · rw [hbet]
      rfl
    · rw [hbet]
      rfl
    · rw [hbet]
      rfl
    · rw [hbet]
      rfl
    · rw [hbet]
      exact hev

/-- C1 witness: the shape theorem instantiated at the example event. -/
theorem positiveEvBet_entry_shape_witness :
    (betEntryFields exampleBet).map Prod.fst = ["name", "odds", "overUnder", "ev"] ∧
    "stake" ∉ (betEntryFields exampleBet).map Prod.fst ∧
    ∃ markets m q bb, exampleEvent.odds = some markets ∧ ("m1", m) ∈ markets ∧
      m.byBookmaker = some bb ∧ ("fanduel", q) ∈ bb ∧
      exampleBet.name = sportsbookName "fanduel" ∧ exampleBet.odds = q.odds ∧
      exampleBet.overUnder = q.overUnder ∧ exampleBet.ev = evForOdds m.fairOdds q.odds ∧
      (0 : ℚ) < exampleBet.ev :=
  positiveEvBet_entry_shape (-400) 300 0 exampleEvent exampleResult "m1" exampleOpp
    "fanduel" exampleBet exampleEvent_eval (by simp [exampleResult])
    (by simp [exampleOpp])

/-- C2 amended: in the fair-price evaluator a bySource entry is a candidate
exactly under the four conditions of the claim, with lines compared for
exact optional equality; in the pinny evaluator the reference line is first
truncated by parseInt, so a candidate line must be a number equal to that
truncation, and a both-absent pair of lines disqualifies. -/
theorem candidate_characterization
    (refOdds pinnyOdds minOdds maxOdds : ℤ) (refLine : Option ℚ) (pinnyLine : Option ℤ)
    (bb : List (String × Quote)) (k : String) (v : Quote) :
    ((k, v) ∈ goodBookEntries refOdds refLine minOdds maxOdds bb ↔
      ((k, v) ∈ bb ∧ k ∈ sportsbookKeys ∧ refOdds < v.odds ∧
        minOdds ≤ v.odds ∧ v.odds ≤ maxOdds ∧ v.overUnder = refLine)) ∧
    ((k, v) ∈ pinnyGoodBookEntries pinnyOdds pinnyLine minOdds maxOdds bb ↔
      ((k, v) ∈ bb ∧ k ∈ sportsbookKeys ∧ pinnyOdds < v.odds ∧
        minOdds ≤ v.odds ∧ v.odds ≤ maxOdds ∧
        ∃ x n, v.overUnder = some x ∧ pinnyLine = some n ∧ x = (n : ℚ))) :=
  ⟨mem_goodBookEntries, mem_pinnyGoodBookEntries⟩

/-- C2 counterexample: in pinny mode the fanduel quote satisfies every
candidate condition of the claim against the pinnacle reference, price
-110 and line 2.5: registered key, price 150 above the reference and inside
the bounds, and a line exactly equal to the reference line.  The code still
excludes it, because parseInt truncates the reference line to 2, and the
whole market is dropped from the result. -/
theorem pinny_line_match_excluded_counterexample :
    ("fanduel", pinnyCandidateQuote) ∈ pinnyExampleBB ∧
    "fanduel" ∈ sportsbookKeys ∧
    pinnyRefQuote.odds < pinnyCandidateQuote.odds ∧
    (-400 : ℤ) ≤ pinnyCandidateQuote.odds ∧ pinnyCandidateQuote.odds ≤ 300 ∧
    pinnyCandidateQuote.overUnder = pinnyRefQuote.overUnder ∧
    ("fanduel", pinnyCandidateQuote) ∉
      pinnyGoodBookEntries pinnyRefQuote.odds (jsParseIntOfLine pinnyRefQuote.overUnder)
        (-400) 300 pinnyExampleBB ∧
    findBetterBetsThanPinny (some pinnyExampleEvent) (-400) 300 0 =
      some pinnyExampleResult ∧
    pinnyExampleResult.odds = [] := by
  refine ⟨by simp [pinnyExampleBB], by decide, by decide, by decide, by decide, rfl,
    ?_, pinnyExampleEvent_eval, rfl⟩
  have h1 : jsParseIntOfLine pinnyRefQuote.overUnder = some 2 := jsParseIntOfLine_example
  rw [h1, show pinnyRefQuote.odds = (-110 : ℤ) from rfl, pinnyExampleGood_eval]
  simp

/-- C4: for every candidate of a market, the EV is the implied probability
of the reference price times the decimal odds of the candidate price minus
one, and the candidate contributes a bet entry to the market output exactly
when this EV strictly exceeds minEV. -/
theorem candidate_bet_iff_ev_above_threshold
    (minOdds maxOdds : ℤ) (minEV : ℚ) (mkey : String) (m : Market)
    (bb : List (String × Quote)) (book : String) (q : Quote)
    (hbb : m.byBookmaker = some bb)
    (hc : (book, q) ∈ goodBookEntries m.fairOdds m.fairOverUnder minOdds maxOdds bb) :
    evForOdds m.fairOdds q.odds =
      convertAmericanOddsToImpliedProbability (m.fairOdds : ℚ) *
        convertAmericanOddsToDecimalOdds (q.odds : ℚ) - 1 ∧
    ((∃ opp, processMarket minOdds maxOdds minEV mkey m = some (mkey, opp) ∧
        (book, mkPosEvBet m.fairOdds book q) ∈ opp.positiveEvBets) ↔
      minEV < evForOdds m.fairOdds q.odds) := by
  refine ⟨rfl, ?_, ?_⟩
  · rintro ⟨opp, hopp, hmem⟩
    obtain ⟨bb2, hbb2, hk, hbets, hne, hfair⟩ := processMarket_eq_some hopp
    rw [hbb] at hbb2
    have hbbeq : bb = bb2 := Option.some.inj hbb2
    rw [hbets] at hmem
    obtain ⟨q2, hq2good, hq2bet, hq2ev⟩ := mem_positiveEvBetsFor hmem
    have hodds : q.odds = q2.odds := congrArg PosEvBet.odds hq2bet
    rw [show evForOdds m.fairOdds q.odds = evForOdds m.fairOdds q2.odds from by
      rw [hodds]]
    exact hq2ev
  · intro hev
    have hmem := mem_positiveEvBetsFor_of hc hev
    have hne : positiveEvBetsFor m.fairOdds minEV
        (goodBookEntries m.fairOdds m.fairOverUnder minOdds maxOdds bb) ≠ [] :=
      List.ne_nil_of_mem hmem
    exact ⟨_, processMarket_eq_some_of hbb hne, hmem⟩

/-- C4 witness: the candidate theorem instantiated at the example market. -/
theorem candidate_bet_iff_ev_above_threshold_witness :
    evForOdds exampleMarket.fairOdds exampleQuote.odds =
      convertAmericanOddsToImpliedProbability (exampleMarket.fairOdds : ℚ) *
        convertAmericanOddsToDecimalOdds (exampleQuote.odds : ℚ) - 1 ∧
    ((∃ opp, processMarket (-400) 300 0 "m1" exampleMarket = some ("m1", opp) ∧
        ("fanduel", mkPosEvBet exampleMarket.fairOdds "fanduel" exampleQuote) ∈
          opp.positiveEvBets) ↔
      (0 : ℚ) < evForOdds exampleMarket.fairOdds exampleQuote.odds) :=
  candidate_bet_iff_ev_above_threshold (-400) 300 0 "m1" exampleMarket
    [("fanduel", exampleQuote)] "fanduel" exampleQuote rfl
    (by rw [show exampleMarket.fairOdds = (-110 : ℤ) from rfl,
          show exampleMarket.fairOverUnder = some ((5 : ℚ) / 2) from rfl,
          exampleGood_eval]
        exact List.mem_singleton_self _)

/-- Helper: a pinny-mode market entry in the output has non-empty bets. -/
lemma processMarketPinny_bets_ne_nil {minOdds maxOdds : ℤ} {minEV : ℚ} {k : String}
    {m : Market} {kv : String × PinnyMarketOpp}
    (h : processMarketPinny minOdds maxOdds minEV k m = some kv) :
    kv.2.positiveEvBets ≠ [] := by
  unfold processMarketPinny at h
  cases hb : m.byBookmaker with
  | none =>
    rw [hb] at h
    exact Option.noConfusion h
  | some bb =>
    rw [hb] at h
    simp only at h
    cases hl : bb.lookup "pinnacle" with
    | none =>
      rw [hl] at h
      exact Option.noConfusion h
    | some pq =>
      rw [hl] at h
      simp only at h
      by_cases hg : (pinnyGoodBookEntries pq.odds (jsParseIntOfLine pq.overUnder)
          minOdds maxOdds bb).isEmpty
      · rw [if_pos hg] at h
        exact Option.noConfusion h
      · rw [if_neg hg] at h
        by_cases hp : (positiveEvBetsFor pq.odds minEV
            (pinnyGoodBookEntries pq.odds (jsParseIntOfLine pq.overUnder)
              minOdds maxOdds bb)).isEmpty
        · rw [if_pos hp] at h
          exact Option.noConfusion h
        · rw [if_neg hp] at h
          have hkv := Option.some.inj h
          rw [← hkv]
          simp only
          intro hnil
          rw [← List.isEmpty_iff] at hnil
          exact hp hnil

/-- C6: every market key present in the odds mapping of an evaluation
result, in the fair mode as well as in the pinny mode, carries a non-empty
positive-EV bet mapping. -/
theorem result_markets_have_nonempty_bets :
    (∀ (e : Event) (minOdds maxOdds : ℤ) (minEV : ℚ) (r : EvalResult)
       (mkey : String) (opp : MarketOpp),
       findPositiveEvBetsForEvent (some e) minOdds maxOdds minEV = some r →
       (mkey, opp) ∈ r.odds → opp.positiveEvBets ≠ []) ∧
    (∀ (e : Event) (minOdds maxOdds : ℤ) (minEV : ℚ) (r : PinnyEvalResult)
       (mkey : String) (opp : PinnyMarketOpp),
       findBetterBetsThanPinny (some e) minOdds maxOdds minEV = some r →
       (mkey, opp) ∈ r.odds → opp.positiveEvBets ≠ []) := by
  constructor
  · intro e minOdds maxOdds minEV r mkey opp hr hm
    cases ho : e.odds with
    | none =>
      simp only [findPositiveEvBetsForEvent, ho] at hr
      exact Option.noConfusion hr
    | some markets =>
      have hodds : r.odds = markets.filterMap
          (fun km => processMarket minOdds maxOdds minEV km.1 km.2) := by
        simp only [findPositiveEvBetsForEvent, ho] at hr
        rw [← Option.some.inj hr]
      rw [hodds, List.mem_filterMap] at hm
      obtain ⟨km, hkm, hpm⟩ := hm
      obtain ⟨bb, hbb, hk, hbets, hne, hfair⟩ := processMarket_eq_some hpm
      exact hne
  · intro e minOdds maxOdds minEV r mkey opp hr hm
    cases ho : e.odds with
    | none =>
      simp only [findBetterBetsThanPinny, ho] at hr
      exact Option.noConfusion hr
    | some markets =>
      have hodds : r.odds = markets.filterMap
          (fun km => processMarketPinny minOdds maxOdds minEV km.1 km.2) := by
        simp only [findBetterBetsThanPinny, ho] at hr
        rw [← Option.some.inj hr]
      rw [hodds, List.mem_filterMap] at hm
      obtain ⟨km, hkm, hpm⟩ := hm
      exact processMarketPinny_bets_ne_nil hpm

/-- C6 witness: the non-emptiness theorem instantiated at the example
event, whose result contains the market key m1. -/
theorem result_markets_have_nonempty_bets_witness :
    exampleOpp.positiveEvBets ≠ [] :=
  result_markets_have_nonempty_bets.1 exampleEvent (-400) 300 0 exampleResult
    "m1" exampleOpp exampleEvent_eval (by simp [exampleResult])

/-- Helper: raising the EV threshold never lengthens the kept-bets list. -/
lemma positiveEvBetsFor_length_anti (refOdds : ℤ) {minEV1 minEV2 : ℚ}
    (h : minEV1 ≤ minEV2) (good : List (String × Quote)) :
    (positiveEvBetsFor refOdds minEV2 good).length ≤
      (positiveEvBetsFor refOdds minEV1 good).length := by
  induction good with
  | nil => exact le_refl _
  | cons kv t ih =>
    unfold positiveEvBetsFor at ih ⊢
    rw [List.filterMap_cons, List.filterMap_cons]
    by_cases h2 : minEV2 < evForOdds refOdds kv.2.odds
    · have h1 : minEV1 < evForOdds refOdds kv.2.odds := lt_of_le_of_lt h h2
      rw [if_pos h2, if_pos h1]
      simp only [List.length_cons]
      exact Nat.succ_le_succ ih
    · rw [if_neg h2]
      by_cases h1 : minEV1 < evForOdds refOdds kv.2.odds
      · rw [if_pos h1]
        simp only [List.length_cons]
        exact Nat.le_succ_of_le ih
      · rw [if_neg h1]
        exact ih

/-- Helper: the bet count of one market equals the length of the kept-bets
list of its candidate filter, markets without a bookmaker mapping counting
zero; the pruning of empty markets does not change the count. -/
lemma marketBetCount_eq (minOdds maxOdds : ℤ) (minEV : ℚ) (km : String × Market) :
    marketBetCount minOdds maxOdds minEV km =
      match km.2.byBookmaker with
      | none => 0
      | some bb => (positiveEvBetsFor km.2.fairOdds minEV
          (goodBookEntries km.2.fairOdds km.2.fairOverUnder minOdds maxOdds bb)).length := by
  unfold marketBetCount processMarket
  cases hb : km.2.byBookmaker with
  | none => rfl
  | some bb =>
    simp only
    by_cases hg : (goodBookEntries km.2.fairOdds km.2.fairOverUnder minOdds maxOdds bb).isEmpty
    · rw [if_pos hg]
      rw [List.isEmpty_iff.mp hg]
      rfl
    · rw [if_neg hg]
      by_cases hp : (positiveEvBetsFor km.2.fairOdds minEV
          (goodBookEntries km.2.fairOdds km.2.fairOverUnder minOdds maxOdds bb)).isEmpty
      · rw [if_pos hp]
        rw [List.isEmpty_iff.mp hp]
        rfl
      · rw [if_neg hp]

/-- Helper: the total bet count of a result is the sum of the per-market
counts over the input markets. -/
lemma countBets_eq_sum (minOdds maxOdds : ℤ) (minEV : ℚ)
    (markets : List (String × Market)) :
    ((markets.filterMap fun km => processMarket minOdds maxOdds minEV km.1 km.2).map
        (fun kv => kv.2.positiveEvBets.length)).sum =
      (markets.map fun km => marketBetCount minOdds maxOdds minEV km).sum := by
  induction markets with
  | nil => rfl
  | cons a t ih =>
    rw [List.filterMap_cons, List.map_cons, List.sum_cons]
    cases hp : processMarket minOdds maxOdds minEV a.1 a.2 with
    | none =>
      rw [show marketBetCount minOdds maxOdds minEV a = 0 from by
        unfold marketBetCount; rw [hp]]
      rw [ih]
      omega
    | some kv =>
      rw [List.map_cons, List.sum_cons]
      rw [show marketBetCount minOdds maxOdds minEV a = kv.2.positiveEvBets.length from by
        unfold marketBetCount; rw [hp]]
      rw [ih]

/-- C7: with the price bounds fixed, raising the EV threshold never
increases the total number of positive-EV bet entries in the result. -/
theorem countBets_antitone_in_minEV (event : Option Event) (minOdds maxOdds : ℤ)
    (minEV1 minEV2 : ℚ) (h : minEV1 ≤ minEV2) :
    countBets (findPositiveEvBetsForEvent event minOdds maxOdds minEV2) ≤
      countBets (findPositiveEvBetsForEvent event minOdds maxOdds minEV1) := by
  cases event with
  | none => exact le_refl _
  | some e =>
    cases ho : e.odds with
    | none =>
      simp only [findPositiveEvBetsForEvent, ho]
      exact le_refl _
    | some markets =>
      simp only [findPositiveEvBetsForEvent, ho, countBets]
      rw [countBets_eq_sum, countBets_eq_sum]
      refine List.sum_le_sum ?_
      intro km hkm
      rw [marketBetCount_eq, marketBetCount_eq]
      cases km.2.byBookmaker with
      | none => exact le_refl _
      | some bb => exact positiveEvBetsFor_length_anti _ h _

/-- C7 witness: the monotonicity theorem instantiated at the example event
and the thresholds 0 and 1. -/
theorem countBets_antitone_in_minEV_witness :
    countBets (findPositiveEvBetsForEvent (some exampleEvent) (-400) 300 1) ≤
      countBets (findPositiveEvBetsForEvent (some exampleEvent) (-400) 300 0) :=
  countBets_antitone_in_minEV (some exampleEvent) (-400) 300 0 1 (by norm_num)

/-- C8: for every nonzero integer American price p, the implied probability
is abs p / (abs p + 100) for negative p and 100 / (p + 100) for positive p,
and it lies strictly between 0 and 1. -/
theorem impliedProbability_formula_and_range (p : ℤ) (hp : p ≠ 0) :
    convertAmericanOddsToImpliedProbability (p : ℚ) =
      (if p < 0 then (|p| : ℤ) / ((|p| : ℤ) + 100 : ℚ) else (100 : ℚ) / ((p : ℚ) + 100)) ∧
    0 < convertAmericanOddsToImpliedProbability (p : ℚ) ∧
    convertAmericanOddsToImpliedProbability (p : ℚ) < 1 := by
  refine ⟨?_, implied_pos _, implied_lt_one _ (by exact_mod_cast hp)⟩
  by_cases h : p < 0
  · have hq : (p : ℚ) < 0 := by exact_mod_cast h
    have habs : ((|p| : ℤ) : ℚ) = -(p : ℚ) := by
      rw [abs_of_neg h]; push_cast; ring
    rw [if_pos h, habs]
    unfold convertAmericanOddsToImpliedProbability
    rw [if_pos hq]
    rw [show -(p : ℚ) + 100 = -((p : ℚ) - 100) by ring, show -(p : ℚ) = -((p : ℚ)) by ring,
      neg_div_neg_eq]
  · have hq : ¬ (p : ℚ) < 0 := by exact_mod_cast h
    rw [if_neg h]
    unfold convertAmericanOddsToImpliedProbability
    rw [if_neg hq]

/-- C8 witness: the price -110 is nonzero, its implied probability matches
the stated formula and lies in the open unit interval. -/
theorem impliedProbability_formula_and_range_witness :
    convertAmericanOddsToImpliedProbability ((-110 : ℤ) : ℚ) =
      (if (-110 : ℤ) < 0 then (|(-110 : ℤ)| : ℤ) / ((|(-110 : ℤ)| : ℤ) + 100 : ℚ)
       else (100 : ℚ) / (((-110 : ℤ) : ℚ) + 100)) ∧
    0 < convertAmericanOddsToImpliedProbability ((-110 : ℤ) : ℚ) ∧
    convertAmericanOddsToImpliedProbability ((-110 : ℤ) : ℚ) < 1 :=
  impliedProbability_formula_and_range (-110) (by decide)

/-- Helper: the Kelly b term vanishes only at the offered price 0. -/
lemma kelly_b_ne_zero {betOdds : ℚ} (h : betOdds ≠ 0) :
    convertAmericanOddsToDecimalOdds betOdds - 1 ≠ 0 := by
  unfold convertAmericanOddsToDecimalOdds
  split
  · intro hb
    have h100 : (100 : ℚ) / betOdds = 0 := by linarith
    rcases div_eq_zero_iff.mp h100 with h1 | h2
    · norm_num at h1
    · exact h h2
  · intro hb
    have hq : betOdds / 100 = 0 := by linarith
    rcases div_eq_zero_iff.mp hq with h1 | h2
    · exact h h1
    · norm_num at h2

/-- C5: for nonzero offered and reference prices the Kelly sizing function
returns exactly ((b*p - q) / b) * kellyFraction * bankroll as a finite
value, with p the implied probability of the reference price, q its
complement and b the offered decimal odds minus one; no clamping occurs,
and the omitted-argument form uses the default fraction 1/4. -/
theorem determineBetSize_eq_kelly_formula
    (bankroll betOdds trueOdds kellyFraction : ℚ)
    (hbet : betOdds ≠ 0) (_htrue : trueOdds ≠ 0) :
    kellyFractionDefault = 1 / 4 ∧
    determineBetSizeUsingKellyCriterion bankroll betOdds trueOdds =
      determineBetSizeUsingKellyCriterionWith bankroll betOdds trueOdds
        kellyFractionDefault ∧
    determineBetSizeUsingKellyCriterionWith bankroll betOdds trueOdds kellyFraction =
      JsNum.fin
        ((((convertAmericanOddsToDecimalOdds betOdds - 1) *
              convertAmericanOddsToImpliedProbability trueOdds -
            (1 - convertAmericanOddsToImpliedProbability trueOdds)) /
            (convertAmericanOddsToDecimalOdds betOdds - 1)) *
          kellyFraction * bankroll) := by
  refine ⟨rfl, rfl, ?_⟩
  have hb := kelly_b_ne_zero hbet
  simp only [determineBetSizeUsingKellyCriterionWith]
  unfold jsDivQ
  rw [if_neg hb]
  rfl

/-- C5 witness: the Kelly formula theorem instantiated at bankroll 1000,
offered price 150, reference price -110 and fraction 1/4. -/
theorem determineBetSize_eq_kelly_formula_witness :
    kellyFractionDefault = 1 / 4 ∧
    determineBetSizeUsingKellyCriterion 1000 150 (-110) =
      determineBetSizeUsingKellyCriterionWith 1000 150 (-110) kellyFractionDefault ∧
    determineBetSizeUsingKellyCriterionWith 1000 150 (-110) (1 / 4) =
      JsNum.fin
        ((((convertAmericanOddsToDecimalOdds 150 - 1) *
              convertAmericanOddsToImpliedProbability (-110) -
            (1 - convertAmericanOddsToImpliedProbability (-110))) /
            (convertAmericanOddsToDecimalOdds 150 - 1)) *
          (1 / 4) * 1000) :=
  determineBetSize_eq_kelly_formula 1000 150 (-110) (1 / 4) (by norm_num) (by norm_num)

/-- C3 amended: the odds transforms are total and signal no errors: at
price 0 the two conversions silently return 1, and the Kelly computation at
offered price 0 divides by b = 0 and yields negative infinity for every
nonzero reference price, positive fraction and positive bankroll, so an
infinity does appear in a result. -/
theorem kelly_zero_offered_price_silently_negInf
    (bankroll trueOdds kellyFraction : ℚ) (htrue : trueOdds ≠ 0)
    (hkf : 0 < kellyFraction) (hbk : 0 < bankroll) :
    convertAmericanOddsToDecimalOdds 0 = 1 ∧
    convertAmericanOddsToImpliedProbability 0 = 1 ∧
    determineBetSizeUsingKellyCriterionWith bankroll 0 trueOdds kellyFraction =
      JsNum.negInf := by
  refine ⟨by norm_num [convertAmericanOddsToDecimalOdds],
    by norm_num [convertAmericanOddsToImpliedProbability], ?_⟩
  have hp1 : convertAmericanOddsToImpliedProbability trueOdds < 1 :=
    implied_lt_one _ htrue
  have hb : convertAmericanOddsToDecimalOdds 0 - 1 = 0 := by
    norm_num [convertAmericanOddsToDecimalOdds]
  simp only [determineBetSizeUsingKellyCriterionWith]
  rw [hb]
  have h0 : ∀ p : ℚ, p < 1 → jsDivQ (0 * p - (1 - p)) 0 = JsNum.negInf := by
    intro p hp
    unfold jsDivQ
    have ha : (0 : ℚ) * p - (1 - p) = p - 1 := by ring
    rw [ha, if_pos rfl, if_neg (by intro h2; linarith), if_neg (by intro h2; linarith)]
  have h1 : jsMulQ JsNum.negInf kellyFraction = JsNum.negInf := by
    simp only [jsMulQ]
    rw [if_neg hkf.ne', if_pos hkf]
  have h2 : jsMulQ JsNum.negInf bankroll = JsNum.negInf := by
    simp only [jsMulQ]
    rw [if_neg hbk.ne', if_pos hbk]
  rw [h0 _ hp1, h1, h2]

/-- C3 amended witness: the divergence theorem instantiated at bankroll
100, offered price 0, reference price -110 and fraction 1/4. -/
theorem kelly_zero_offered_price_silently_negInf_witness :
    convertAmericanOddsToDecimalOdds 0 = 1 ∧
    convertAmericanOddsToImpliedProbability 0 = 1 ∧
    determineBetSizeUsingKellyCriterionWith 100 0 (-110) (1 / 4) = JsNum.negInf :=
  kelly_zero_offered_price_silently_negInf 100 (-110) (1 / 4) (by norm_num)
    (by norm_num) (by norm_num)

/-- C3 counterexample: at the invalid price 0 no transform signals an
error: the conversions silently return 1 and the Kelly sizing call of the
betsize route, bankroll 100 with offered price 0 against reference -110,
returns negative infinity inside its result. -/
theorem kelly_zero_price_counterexample :
    convertAmericanOddsToImpliedProbability 0 = 1 ∧
    convertAmericanOddsToDecimalOdds 0 = 1 ∧
    determineBetSizeUsingKellyCriterion 100 0 (-110) = JsNum.negInf := by
  refine ⟨by norm_num [convertAmericanOddsToImpliedProbability],
    by norm_num [convertAmericanOddsToDecimalOdds], ?_⟩
  unfold determineBetSizeUsingKellyCriterion determineBetSizeUsingKellyCriterionWith
  norm_num [convertAmericanOddsToImpliedProbability, convertAmericanOddsToDecimalOdds,
    jsDivQ, jsMulQ, kellyFractionDefault]

/-- C9: a null event, and an event whose odds mapping is absent or null,
both give the null result immediately; the embedded evaluator is a total
function, so no error is raised. -/
theorem find_none_on_missing_input :
    (∀ (minOdds maxOdds : ℤ) (minEV : ℚ),
       findPositiveEvBetsForEvent none minOdds maxOdds minEV = none) ∧
    (∀ (e : Event) (minOdds maxOdds : ℤ) (minEV : ℚ), e.odds = none →
       findPositiveEvBetsForEvent (some e) minOdds maxOdds minEV = none) := by
  constructor
  · intro _ _ _
    rfl
  · intro e _ _ _ h
    simp only [findPositiveEvBetsForEvent, h]

/-- C9 witness: both missing-input cases evaluated at concrete arguments. -/
theorem find_none_on_missing_input_witness :
    findPositiveEvBetsForEvent none (-400) 300 0 = none ∧
    findPositiveEvBetsForEvent (some eventWithoutOdds) (-400) 300 0 = none :=
  ⟨find_none_on_missing_input.1 (-400) 300 0,
   find_none_on_missing_input.2 eventWithoutOdds (-400) 300 0 rfl⟩

/-- C10: at the invalid price 0 both conversion functions take the
non-negative branch and return exactly 1, so the implied probability sits on
the boundary of the unit interval rather than inside it and the Kelly
b term, decimal odds minus one, is zero. -/
theorem odds_transforms_at_zero :
    convertAmericanOddsToDecimalOdds 0 = 1 ∧
    convertAmericanOddsToImpliedProbability 0 = 1 ∧
    convertAmericanOddsToDecimalOdds 0 - 1 = 0 ∧
    ¬ convertAmericanOddsToImpliedProbability 0 < 1 := by
  norm_num [convertAmericanOddsToDecimalOdds, convertAmericanOddsToImpliedProbability]

end SportsOdds
